import Mathlib

/-!
Verification of the `rfc6381-codec` crate (`src/lib.rs`) against its
natural-language specification.

The crate parses and serializes RFC 6381 "codecs" parameter values.  We give a
shallow embedding of the Rust code: a Rust `&str` is modelled as the list of
its Unicode scalar values (`List Char`), with byte-level operations
(`str::len`, byte-range slicing, `str::find`) expressed through the UTF-8
size of each character.  A Rust panic (byte-slicing at a position that is not
a character boundary) is modelled as `none` of an `Option`; fallible parsing
is modelled with `Except`.

External collaborator crates (`mp4ra_rust`, `mpeg4_audio_const`, `four_cc`)
are not part of this repository; the few values of theirs that the code
consults are modelled by value, as documented on each definition.
-/

namespace Rfc6381

/-- A Rust `&str`, modelled as the sequence of its Unicode scalar values. -/
abbrev RStr := List Char

/-- Coerce a Lean string literal to the model type. -/
def strToR (s : String) : RStr := s.data

/-- Number of bytes in the UTF-8 encoding of one character. -/
def utf8Size (c : Char) : Nat :=
  if c.toNat < 0x80 then 1
  else if c.toNat < 0x800 then 2
  else if c.toNat < 0x10000 then 3
  else 4

/-- `str::len`: the length of a Rust string in UTF-8 bytes. -/
def byteLen : RStr → Nat
  | [] => 0
  | c :: cs => utf8Size c + byteLen cs

/-- Error kinds of Rust `core::num::ParseIntError` reachable when parsing `u8`. -/
inductive IntErrorKind
  | Empty
  | InvalidDigit
  | PosOverflow
  deriving DecidableEq

/-- `ParseIntError::to_string()` for each reachable kind. -/
def intErrorMessage : IntErrorKind → RStr
  | .Empty => strToR "cannot parse integer from empty string"
  | .InvalidDigit => strToR "invalid digit found in string"
  | .PosOverflow => strToR "number too large to fit in target type"

/-- `char::to_digit(radix)`: the numeric value of a digit character, if any. -/
def toDigit (radix : Nat) (c : Char) : Option Nat :=
  let d :=
    if '0' ≤ c ∧ c ≤ '9' then some (c.toNat - 48)
    else if 'a' ≤ c ∧ c ≤ 'z' then some (c.toNat - 97 + 10)
    else if 'A' ≤ c ∧ c ≤ 'Z' then some (c.toNat - 65 + 10)
    else none
  match d with
  | some v => if v < radix then some v else none
  | none => none

/-- Digit-accumulation loop of `u8::from_str_radix`: multiply-and-add each
digit, failing with `PosOverflow` as soon as the accumulator would leave the
`u8` range (0..=255). -/
def parseDigitsU8 (radix : Nat) : RStr → Nat → Except IntErrorKind Nat
  | [], acc => .ok acc
  | c :: cs, acc =>
    match toDigit radix c with
    | none => .error .InvalidDigit
    | some d =>
      let v := acc * radix + d
      if v ≤ 255 then parseDigitsU8 radix cs v
      else .error .PosOverflow

/-- `u8::from_str_radix(src, radix)` (for radix 10 this is also `u8::from_str`,
i.e. `str::parse::<u8>`): an empty string is `Empty`; a lone sign is
`InvalidDigit`; a leading `+` is accepted; `-` is not a digit for an unsigned
type; then the digit loop runs. -/
def fromStrRadixU8 (radix : Nat) (src : RStr) : Except IntErrorKind Nat :=
  match src with
  | [] => .error .Empty
  | ['+'] => .error .InvalidDigit
  | '+' :: rest => parseDigitsU8 radix rest 0
  | _ => parseDigitsU8 radix src 0

/-- `u8` rendering via Rust `Display` (`{}` — decimal, no padding),
modelled with Lean's decimal rendering of `Nat`. -/
def decStr (n : Nat) : RStr := (Nat.repr n).data

/-- The crate's error type `CodecError`. -/
inductive CodecError
  | InvalidComponent (s : RStr)
  | ExpectedHierarchySeparator (s : RStr)
  | UnexpectedLength (expected : Nat) (got : RStr)
  deriving DecidableEq

instance instDecidableEqExcept {ε : Type u} {α : Type v} [DecidableEq ε] [DecidableEq α] :
    DecidableEq (Except ε α) := fun a b =>
  match a, b with
  | .error e, .error f =>
    if h : e = f then isTrue (by rw [h]) else isFalse (fun k => h (Except.error.inj k))
  | .error _, .ok _ => isFalse (fun k => Except.noConfusion k)
  | .ok _, .error _ => isFalse (fun k => Except.noConfusion k)
  | .ok x, .ok y =>
    if h : x = y then isTrue (by rw [h]) else isFalse (fun k => h (Except.ok.inj k))

/-- Drop the first `k` bytes of a string (`none` when `k` falls inside the
UTF-8 encoding of a character or past the end — a Rust slice panic). -/
def dropBytes : RStr → Nat → Option RStr
  | s, 0 => some s
  | [], _ => none
  | c :: cs, k => if utf8Size c ≤ k then dropBytes cs (k - utf8Size c) else none

/-- Take the first `k` bytes of a string (`none` when `k` is not a character
boundary — a Rust slice panic). -/
def takeBytes : RStr → Nat → Option RStr
  | _, 0 => some []
  | [], _ => none
  | c :: cs, k =>
    if utf8Size c ≤ k then (takeBytes cs (k - utf8Size c)).map (c :: ·) else none

/-- Rust byte-range slicing `&s[a..b]`; `none` models the panic raised when
either end of the range is not a character boundary. -/
def sliceBytes (s : RStr) (a b : Nat) : Option RStr :=
  if a ≤ b then (dropBytes s a).bind (fun t => takeBytes t (b - a)) else none

/-- `codec.find('.')` followed by `codec.split_at(pos)`: the characters before
the first `.`, and the rest beginning with that `.`; `none` when the string
has no `.`.  This is byte-faithful: `find` returns the byte index of the `.`,
which is always a character boundary. -/
def splitAtFirstDot : RStr → Option (RStr × RStr)
  | [] => none
  | c :: cs =>
    if c = '.' then some ([], c :: cs)
    else
      match splitAtFirstDot cs with
      | some (pre, rest) => some (c :: pre, rest)
      | none => none

/-- The crate's `get_rest`: accept an empty remainder, strip one leading `.`,
otherwise report a missing hierarchy separator. -/
def get_rest (text : RStr) : Except CodecError RStr :=
  match text with
  | [] => .ok []
  | '.' :: rest => .ok rest
  | _ => .error (.ExpectedHierarchySeparator text)

/-- `value.splitn(2, '.')`: the part before the first `.` and, when a `.`
occurs, everything after it. -/
def splitn2Dot : RStr → RStr × Option RStr
  | [] => ([], none)
  | c :: cs =>
    if c = '.' then ([], some cs)
    else
      let (pre, rest) := splitn2Dot cs
      (c :: pre, rest)

/-- `str::split(',')`: the comma-separated pieces of a string (an empty
string yields one empty piece, as in Rust). -/
def splitComma : RStr → List RStr
  | [] => [[]]
  | c :: cs =>
    if c = ',' then [] :: splitComma cs
    else
      match splitComma cs with
      | e :: es => (c :: e) :: es
      | [] => [[c]]

/-- `char::is_whitespace`: the Unicode `White_Space` property. -/
def rustIsWhitespace (c : Char) : Bool :=
  (0x09 ≤ c.toNat && c.toNat ≤ 0x0D) || c.toNat = 0x20 || c.toNat = 0x85 ||
  c.toNat = 0xA0 || c.toNat = 0x1680 ||
  (0x2000 ≤ c.toNat && c.toNat ≤ 0x200A) ||
  c.toNat = 0x2028 || c.toNat = 0x2029 || c.toNat = 0x202F ||
  c.toNat = 0x205F || c.toNat = 0x3000

/-- `str::trim`: remove leading and trailing whitespace. -/
def rustTrim (s : RStr) : RStr :=
  ((s.dropWhile rustIsWhitespace).reverse.dropWhile rustIsWhitespace).reverse

/-- The crate's `Avc1` value: profile, constraint-flags and level, each a `u8`
(modelled as `Nat`; every value the parser produces is ≤ 255). -/
structure Avc1 where
  profile : Nat
  constraints : Nat
  level : Nat
  deriving DecidableEq

/-- `Avc1::from_str`.  The length check is on bytes (`str::len`); each field
is then read from a 2-byte slice (`&value[0..2]` etc.), whose boundary panic
is the `none` outcome, and parsed as base-16 `u8`, any parse failure being
`InvalidComponent` carrying the whole payload. -/
def avc1FromStr (value : RStr) : Option (Except CodecError Avc1) :=
  if byteLen value ≠ 6 then
    some (.error (.UnexpectedLength 6 value))
  else
    match sliceBytes value 0 2 with
    | none => none
    | some s1 =>
      match fromStrRadixU8 16 s1 with
      | .error _ => some (.error (.InvalidComponent value))
      | .ok profile =>
        match sliceBytes value 2 4 with
        | none => none
        | some s2 =>
          match fromStrRadixU8 16 s2 with
          | .error _ => some (.error (.InvalidComponent value))
          | .ok constraints =>
            match sliceBytes value 4 6 with
            | none => none
            | some s3 =>
              match fromStrRadixU8 16 s3 with
              | .error _ => some (.error (.InvalidComponent value))
              | .ok level => some (.ok ⟨profile, constraints, level⟩)

/-- `ObjectTypeIdentifier::AUDIO_ISO_IEC_14496_3` from the external
`mp4ra_rust` crate: the "standard MPEG-4 audio" object-type-indication, 0x40.
(`ObjectTypeIdentifier` itself is a plain `u8` wrapper, modelled as `Nat`.) -/
def AUDIO_ISO_IEC_14496_3 : Nat := 0x40

/-- Modelled from the spec: `AudioObjectType::try_from(u8)` of the external
`mpeg4_audio_const` crate (not part of this repository).  The spec describes
it as "an external audio-object-type enumeration" with "a fallible conversion
from a raw byte to a recognized audio-object-type"; ISO/IEC 14496-3 assigns
audio-object-type codes 1..=45 and all other byte values are unrecognized.
The enumeration value is represented by its raw code (`u8::from` returns it). -/
def audioObjectTypeTryFrom (v : Nat) : Option Nat :=
  if 1 ≤ v ∧ v ≤ 45 then some v else none

/-- The crate's `Mp4a` value.  The external enumeration values
(`AudioObjectType`, `ObjectTypeIdentifier`) are modelled by their raw codes. -/
inductive Mp4a
  | Mpeg4Audio (audio_object_type : Option Nat)
  | Unknown (object_type_indication : Nat) (audio_object_type_indication : Option Nat)
  deriving DecidableEq

/-- `Mp4a::from_str`: split the payload at the first `.` into at most two
components; the first is parsed as a base-16 `u8` object-type-indication
(failure: `InvalidComponent` carrying that component); the second, when
present, is parsed with `u8::from_str` — decimal — (failure:
`InvalidComponent` carrying the `ParseIntError` message); when the
object-type-indication is the standard MPEG-4-audio value the secondary byte
is resolved through `AudioObjectType::try_from`, an unrecognized value being
`InvalidComponent` carrying the byte's decimal string form. -/
def mp4aFromStr (value : RStr) : Except CodecError Mp4a :=
  let s := (splitn2Dot value).1
  let i2 := (splitn2Dot value).2
  match fromStrRadixU8 16 s with
  | .error _ => .error (.InvalidComponent s)
  | .ok oti =>
    let aotiE : Except IntErrorKind (Option Nat) :=
      match i2 with
      | none => .ok none
      | some v => (fromStrRadixU8 10 v).map some
    match aotiE with
    | .error e => .error (.InvalidComponent (intErrorMessage e))
    | .ok aoti =>
      if oti = AUDIO_ISO_IEC_14496_3 then
        match aoti with
        | none => .ok (.Mpeg4Audio none)
        | some b =>
          match audioObjectTypeTryFrom b with
          | none => .error (.InvalidComponent (decStr b))
          | some a => .ok (.Mpeg4Audio (some a))
      else
        .ok (.Unknown oti aoti)

/-- The crate's `Codec` sum type. -/
inductive Codec
  | Avc1 (a : Avc1)
  | Mp4a (m : Mp4a)
  | Unknown (s : RStr)
  deriving DecidableEq

/-- The sample-entry families the dispatcher distinguishes. -/
inductive SampleEntryCode
  | MP4A
  | AVC1
  | other
  deriving DecidableEq

/-- Modelled external lookup `SampleEntryCode::from(FourCC)` (crate
`mp4ra_rust`, not part of this repository): the table maps the four bytes
"mp4a" to `MP4A` and "avc1" to `AVC1`; no other four-character code maps to
either of those two, and the dispatcher treats every other table entry alike
(its match has a catch-all arm). -/
def sampleEntryCode (fourcc : RStr) : SampleEntryCode :=
  if fourcc = strToR "mp4a" then .MP4A
  else if fourcc = strToR "avc1" then .AVC1
  else .other

/-- `Codec::from_str`: find the first `.` (none: `ExpectedHierarchySeparator`);
split there; a leading code that is not exactly 4 bytes long makes the whole
string `Unknown`; otherwise dispatch on the sample-entry table, `Unknown` for
any code other than "mp4a"/"avc1".  The `none` outcome is a panic inside
`Avc1::from_str` (byte slicing off a character boundary). -/
def codecFromStr (codec : RStr) : Option (Except CodecError Codec) :=
  match splitAtFirstDot codec with
  | some (fourcc, rest) =>
    if byteLen fourcc ≠ 4 then some (.ok (.Unknown codec))
    else
      match sampleEntryCode fourcc with
      | .MP4A =>
        match get_rest rest with
        | .error e => some (.error e)
        | .ok r =>
          match mp4aFromStr r with
          | .error e => some (.error e)
          | .ok m => some (.ok (.Mp4a m))
      | .AVC1 =>
        match get_rest rest with
        | .error e => some (.error e)
        | .ok r =>
          match avc1FromStr r with
          | none => none
          | some (.error e) => some (.error e)
          | some (.ok a) => some (.ok (.Avc1 a))
      | .other => some (.ok (.Unknown codec))
  | none => some (.error (.ExpectedHierarchySeparator codec))

/-- One hexadecimal digit, upper case (as in Rust `{:X}` formatting). -/
def hexDigitUpper (n : Nat) : Char :=
  if n < 10 then Char.ofNat (48 + n) else Char.ofNat (65 + n - 10)

/-- One hexadecimal digit, lower case (as in Rust `{:x}` formatting). -/
def hexDigitLower (n : Nat) : Char :=
  if n < 10 then Char.ofNat (48 + n) else Char.ofNat (97 + n - 10)

/-- Rust `{:02X}` formatting of a `u8`: exactly two upper-case hex digits,
zero padded. -/
def hexUpper2 (n : Nat) : RStr := [hexDigitUpper (n / 16), hexDigitUpper (n % 16)]

/-- Rust `{:02x}` formatting of a `u8`: exactly two lower-case hex digits,
zero padded. -/
def hexLower2 (n : Nat) : RStr := [hexDigitLower (n / 16), hexDigitLower (n % 16)]

/-- `impl Display for Mp4a`: the object-type-indication as two lower-case hex
digits, then optionally `.` and the secondary value in decimal. -/
def mp4aDisplay : Mp4a → RStr
  | .Mpeg4Audio aot =>
    hexLower2 AUDIO_ISO_IEC_14496_3 ++
      (match aot with
       | some a => '.' :: decStr a
       | none => [])
  | .Unknown oti aoti =>
    hexLower2 oti ++
      (match aoti with
       | some b => '.' :: decStr b
       | none => [])

/-- `impl Display for Codec`. -/
def codecDisplay : Codec → RStr
  | .Avc1 ⟨p, c, l⟩ => strToR "avc1." ++ hexUpper2 p ++ hexUpper2 c ++ hexUpper2 l
  | .Mp4a m => strToR "mp4a." ++ mp4aDisplay m
  | .Unknown v => v

/-- Parse a string and, on success, format the resulting value. -/
def parseThenDisplay (s : RStr) : Option RStr :=
  match codecFromStr s with
  | some (.ok c) => some (codecDisplay c)
  | _ => none

/-- `Codec::parse_codecs`: split a comma-separated list, trim each entry,
parse each entry independently. -/
def parseCodecs (codecs : RStr) : List (Option (Except CodecError Codec)) :=
  (splitComma codecs).map (fun s => codecFromStr (rustTrim s))

/-- The direct constructor `Codec::avc1(profile, constraints, level)`. -/
def Codec.avc1 (profile constraints level : Nat) : Codec :=
  Codec.Avc1 ⟨profile, constraints, level⟩

/-- Recognizer for an upper-case hexadecimal digit character. -/
def isHexDigitUpper (c : Char) : Bool :=
  ('0' ≤ c && c ≤ '9') || ('A' ≤ c && c ≤ 'F')

/-- Recognizer for a lower-case hexadecimal digit character. -/
def isHexDigitLower (c : Char) : Bool :=
  ('0' ≤ c && c ≤ '9') || ('a' ≤ c && c ≤ 'f')

section Lemmas

set_option maxRecDepth 8000

theorem parseDigitsU8_le : ∀ {s : RStr} {radix acc n : Nat},
    parseDigitsU8 radix s acc = .ok n → acc ≤ 255 → n ≤ 255
  | [], _, _, _, h, hacc => by
    simp only [parseDigitsU8] at h
    injection h with h
    omega
  | c :: cs, radix, acc, n, h, hacc => by
    simp only [parseDigitsU8] at h
    cases hd : toDigit radix c with
    | none => simp only [hd] at h; exact absurd h (by simp)
    | some d =>
      simp only [hd] at h
      by_cases hv : acc * radix + d ≤ 255
      · rw [if_pos hv] at h
        exact parseDigitsU8_le h hv
      · rw [if_neg hv] at h
        exact absurd h (by simp)

theorem fromStrRadixU8_le {radix : Nat} {s : RStr} {n : Nat}
    (h : fromStrRadixU8 radix s = .ok n) : n ≤ 255 := by
  unfold fromStrRadixU8 at h
  split at h
  · exact absurd h (by simp)
  · exact absurd h (by simp)
  · exact parseDigitsU8_le h (by omega)
  · exact parseDigitsU8_le h (by omega)

theorem hexUpper2_rt : ∀ n, n < 256 → fromStrRadixU8 16 (hexUpper2 n) = .ok n := by
  decide

theorem hexLower2_rt : ∀ n, n < 256 → fromStrRadixU8 16 (hexLower2 n) = .ok n := by
  decide

theorem decStr_rt : ∀ n, n < 256 → fromStrRadixU8 10 (decStr n) = .ok n := by
  decide

theorem hexDigitUpper_facts : ∀ d, d < 16 →
    utf8Size (hexDigitUpper d) = 1 ∧ hexDigitUpper d ≠ '.' := by
  decide

theorem hexDigitLower_facts : ∀ d, d < 16 →
    utf8Size (hexDigitLower d) = 1 ∧ hexDigitLower d ≠ '.' := by
  decide

theorem decStr_no_dot : ∀ n, n < 256 → '.' ∉ decStr n := by
  decide

theorem decStr_no_leading_zero : ∀ n, n < 256 → 1 ≤ n → (decStr n).head? ≠ some '0' := by
  decide

theorem hexUpper2_len2 : ∀ n, n < 256 →
    (hexUpper2 n).length = 2 ∧ ∀ ch ∈ hexUpper2 n, isHexDigitUpper ch = true := by
  decide

theorem hexLower2_len2 : ∀ n, n < 256 →
    (hexLower2 n).length = 2 ∧ ∀ ch ∈ hexLower2 n, isHexDigitLower ch = true := by
  decide

theorem splitAtFirstDot_eq_none : ∀ {s : RStr}, '.' ∉ s → splitAtFirstDot s = none
  | [], _ => rfl
  | c :: cs, h => by
    have hc : ¬(c = '.') := fun e => h (by simp [e])
    have hcs : '.' ∉ cs := fun m => h (List.mem_cons_of_mem _ m)
    simp only [splitAtFirstDot]
    rw [if_neg hc, splitAtFirstDot_eq_none hcs]

theorem splitAtFirstDot_append : ∀ (xs ys : RStr), '.' ∉ xs →
    splitAtFirstDot (xs ++ '.' :: ys) = some (xs, '.' :: ys)
  | [], ys, _ => by simp [splitAtFirstDot]
  | c :: cs, ys, h => by
    have hc : ¬(c = '.') := fun e => h (by simp [e])
    have hcs : '.' ∉ cs := fun m => h (List.mem_cons_of_mem _ m)
    simp only [List.cons_append, splitAtFirstDot, List.append_eq]
    rw [if_neg hc, splitAtFirstDot_append cs ys hcs]

theorem splitn2Dot_no_dot : ∀ {xs : RStr}, '.' ∉ xs → splitn2Dot xs = (xs, none)
  | [], _ => rfl
  | c :: cs, h => by
    have hc : ¬(c = '.') := fun e => h (by simp [e])
    have hcs : '.' ∉ cs := fun m => h (List.mem_cons_of_mem _ m)
    simp only [splitn2Dot]
    rw [if_neg hc, splitn2Dot_no_dot hcs]

theorem splitn2Dot_append : ∀ (xs ys : RStr), '.' ∉ xs →
    splitn2Dot (xs ++ '.' :: ys) = (xs, some ys)
  | [], ys, _ => by simp [splitn2Dot]
  | c :: cs, ys, h => by
    have hc : ¬(c = '.') := fun e => h (by simp [e])
    have hcs : '.' ∉ cs := fun m => h (List.mem_cons_of_mem _ m)
    simp only [List.cons_append, splitn2Dot, List.append_eq]
    rw [if_neg hc, splitn2Dot_append cs ys hcs]

theorem byteLen_append (xs ys : RStr) : byteLen (xs ++ ys) = byteLen xs + byteLen ys := by
  induction xs with
  | nil => simp [byteLen]
  | cons c cs ih =>
    simp only [List.cons_append, byteLen, List.append_eq, ih]
    omega

theorem sliceBytes_six {c1 c2 c3 c4 c5 c6 : Char}
    (h1 : utf8Size c1 = 1) (h2 : utf8Size c2 = 1) (h3 : utf8Size c3 = 1)
    (h4 : utf8Size c4 = 1) (h5 : utf8Size c5 = 1) (h6 : utf8Size c6 = 1) :
    sliceBytes [c1, c2, c3, c4, c5, c6] 0 2 = some [c1, c2] ∧
    sliceBytes [c1, c2, c3, c4, c5, c6] 2 4 = some [c3, c4] ∧
    sliceBytes [c1, c2, c3, c4, c5, c6] 4 6 = some [c5, c6] := by
  refine ⟨?_, ?_, ?_⟩ <;>
    simp [sliceBytes, dropBytes, takeBytes, h1, h2, h3, h4, h5, h6]

/-- Dispatch: a string beginning `avc1.` always reaches the `Avc1` sub-parser. -/
theorem codecFromStr_avc1 (payload : RStr) :
    codecFromStr (strToR "avc1." ++ payload) =
      match avc1FromStr payload with
      | none => none
      | some (.error e) => some (.error e)
      | some (.ok a) => some (.ok (.Avc1 a)) := by
  have h := splitAtFirstDot_append ['a', 'v', 'c', '1'] payload (by decide)
  unfold codecFromStr
  rw [show strToR "avc1." ++ payload = ['a', 'v', 'c', '1'] ++ '.' :: payload from rfl, h]
  rfl

/-- Dispatch: a string beginning `mp4a.` always reaches the `Mp4a` sub-parser. -/
theorem codecFromStr_mp4a (payload : RStr) :
    codecFromStr (strToR "mp4a." ++ payload) =
      match mp4aFromStr payload with
      | .error e => some (.error e)
      | .ok m => some (.ok (.Mp4a m)) := by
  have h := splitAtFirstDot_append ['m', 'p', '4', 'a'] payload (by decide)
  unfold codecFromStr
  rw [show strToR "mp4a." ++ payload = ['m', 'p', '4', 'a'] ++ '.' :: payload from rfl, h]
  rfl

theorem audioObjectTypeTryFrom_ok {b a : Nat} (h : audioObjectTypeTryFrom b = some a) :
    a = b ∧ 1 ≤ a ∧ a ≤ 45 := by
  unfold audioObjectTypeTryFrom at h
  split at h
  · next hb => injection h with h; subst h; exact ⟨rfl, hb.1, hb.2⟩
  · exact absurd h (by simp)

theorem avc1FromStr_ok_le {payload : RStr} {a : Avc1}
    (h : avc1FromStr payload = some (.ok a)) :
    a.profile ≤ 255 ∧ a.constraints ≤ 255 ∧ a.level ≤ 255 := by
  unfold avc1FromStr at h
  by_cases hlen : byteLen payload ≠ 6
  · rw [if_pos hlen] at h; exact absurd h (by simp)
  · rw [if_neg hlen] at h
    cases h1 : sliceBytes payload 0 2 with
    | none => simp only [h1] at h; exact absurd h (by simp)
    | some s1 =>
      simp only [h1] at h
      cases h2 : fromStrRadixU8 16 s1 with
      | error e => simp only [h2] at h; exact absurd h (by simp)
      | ok p =>
        simp only [h2] at h
        cases h3 : sliceBytes payload 2 4 with
        | none => simp only [h3] at h; exact absurd h (by simp)
        | some s2 =>
          simp only [h3] at h
          cases h4 : fromStrRadixU8 16 s2 with
          | error e => simp only [h4] at h; exact absurd h (by simp)
          | ok co =>
            simp only [h4] at h
            cases h5 : sliceBytes payload 4 6 with
            | none => simp only [h5] at h; exact absurd h (by simp)
            | some s3 =>
              simp only [h5] at h
              cases h6 : fromStrRadixU8 16 s3 with
              | error e => simp only [h6] at h; exact absurd h (by simp)
              | ok l =>
                simp only [h6, Option.some.injEq] at h
                injection h with h
                subst h
                exact ⟨fromStrRadixU8_le h2, fromStrRadixU8_le h4, fromStrRadixU8_le h6⟩

theorem mp4aFromStr_ok_wf {payload : RStr} {m : Mp4a} (h : mp4aFromStr payload = .ok m) :
    (m = .Mpeg4Audio none) ∨
    (∃ a, m = .Mpeg4Audio (some a) ∧ 1 ≤ a ∧ a ≤ 45) ∨
    (∃ oti aoti, m = .Unknown oti aoti ∧ oti ≤ 255 ∧ oti ≠ 64 ∧
       (aoti = none ∨ ∃ b, aoti = some b ∧ b ≤ 255)) := by
  unfold mp4aFromStr at h
  cases h1 : fromStrRadixU8 16 (splitn2Dot payload).1 with
  | error e => simp only [h1] at h; exact absurd h (by simp)
  | ok oti =>
    simp only [h1] at h
    have hoti : oti ≤ 255 := fromStrRadixU8_le h1
    cases h2 : (splitn2Dot payload).2 with
    | none =>
      simp only [h2] at h
      by_cases ho : oti = AUDIO_ISO_IEC_14496_3
      · rw [if_pos ho] at h
        injection h with h
        exact Or.inl h.symm
      · rw [if_neg ho] at h
        injection h with h
        exact Or.inr (Or.inr ⟨oti, none, h.symm, hoti, ho, Or.inl rfl⟩)
    | some v =>
      simp only [h2] at h
      cases h3 : fromStrRadixU8 10 v with
      | error e => simp only [h3, Except.map] at h; exact absurd h (by simp)
      | ok b =>
        simp only [h3, Except.map] at h
        have hb : b ≤ 255 := fromStrRadixU8_le h3
        by_cases ho : oti = AUDIO_ISO_IEC_14496_3
        · rw [if_pos ho] at h
          cases h4 : audioObjectTypeTryFrom b with
          | none => simp only [h4] at h; exact absurd h (by simp)
          | some a =>
            simp only [h4] at h
            injection h with h
            obtain ⟨rfl, ha1, ha2⟩ := audioObjectTypeTryFrom_ok h4
            exact Or.inr (Or.inl ⟨a, h.symm, ha1, ha2⟩)
        · rw [if_neg ho] at h
          injection h with h
          exact Or.inr (Or.inr ⟨oti, some b, h.symm, hoti, ho, Or.inr ⟨b, rfl, hb⟩⟩)

theorem codecFromStr_ok_inv {s : RStr} {c : Codec}
    (h : codecFromStr s = some (.ok c)) :
    c = .Unknown s ∨
    (∃ a payload, c = .Avc1 a ∧ avc1FromStr payload = some (.ok a)) ∨
    (∃ m payload, c = .Mp4a m ∧ mp4aFromStr payload = .ok m) := by
  unfold codecFromStr at h
  cases hs : splitAtFirstDot s with
  | none => simp only [hs] at h; exact absurd h (by simp)
  | some pr =>
    obtain ⟨fourcc, rest⟩ := pr
    simp only [hs] at h
    by_cases hb : byteLen fourcc ≠ 4
    · rw [if_pos hb] at h
      injection h with h
      injection h with h
      exact Or.inl h.symm
    · rw [if_neg hb] at h
      cases hsec : sampleEntryCode fourcc with
      | MP4A =>
        simp only [hsec] at h
        cases hr : get_rest rest with
        | error e => simp only [hr] at h; exact absurd h (by simp)
        | ok r =>
          simp only [hr] at h
          cases hm : mp4aFromStr r with
          | error e => simp only [hm] at h; exact absurd h (by simp)
          | ok m =>
            simp only [hm] at h
            injection h with h
            injection h with h
            exact Or.inr (Or.inr ⟨m, r, h.symm, hm⟩)
      | AVC1 =>
        simp only [hsec] at h
        cases hr : get_rest rest with
        | error e => simp only [hr] at h; exact absurd h (by simp)
        | ok r =>
          simp only [hr] at h
          cases ha : avc1FromStr r with
          | none => simp only [ha] at h; exact absurd h (by simp)
          | some res =>
            cases res with
            | error e => simp only [ha] at h; exact absurd h (by simp)
            | ok a =>
              simp only [ha] at h
              injection h with h
              injection h with h
              exact Or.inr (Or.inl ⟨a, r, h.symm, ha⟩)
      | other =>
        simp only [hsec] at h
        injection h with h
        injection h with h
        exact Or.inl h.symm

theorem byteLen_hexUpper2 {n : Nat} (h : n ≤ 255) : byteLen (hexUpper2 n) = 2 := by
  have h1 := (hexDigitUpper_facts (n / 16) (by omega)).1
  have h2 := (hexDigitUpper_facts (n % 16) (by omega)).1
  simp [hexUpper2, byteLen, h1, h2]

theorem no_dot_hexUpper2 {n : Nat} (h : n ≤ 255) : '.' ∉ hexUpper2 n := by
  have h1 := (hexDigitUpper_facts (n / 16) (by omega)).2
  have h2 := (hexDigitUpper_facts (n % 16) (by omega)).2
  simp [hexUpper2]
  exact ⟨Ne.symm h1, Ne.symm h2⟩

theorem no_dot_hexLower2 {n : Nat} (h : n ≤ 255) : '.' ∉ hexLower2 n := by
  have h1 := (hexDigitLower_facts (n / 16) (by omega)).2
  have h2 := (hexDigitLower_facts (n % 16) (by omega)).2
  simp [hexLower2]
  exact ⟨Ne.symm h1, Ne.symm h2⟩

theorem avc1FromStr_hexUpper2 {p co l : Nat} (hp : p ≤ 255) (hc : co ≤ 255)
    (hl : l ≤ 255) :
    avc1FromStr (hexUpper2 p ++ hexUpper2 co ++ hexUpper2 l) = some (.ok ⟨p, co, l⟩) := by
  have s1 := (hexDigitUpper_facts (p / 16) (by omega)).1
  have s2 := (hexDigitUpper_facts (p % 16) (by omega)).1
  have s3 := (hexDigitUpper_facts (co / 16) (by omega)).1
  have s4 := (hexDigitUpper_facts (co % 16) (by omega)).1
  have s5 := (hexDigitUpper_facts (l / 16) (by omega)).1
  have s6 := (hexDigitUpper_facts (l % 16) (by omega)).1
  have hsl := sliceBytes_six s1 s2 s3 s4 s5 s6
  have hsl1 : sliceBytes (hexUpper2 p ++ hexUpper2 co ++ hexUpper2 l) 0 2 =
      some (hexUpper2 p) := hsl.1
  have hsl2 : sliceBytes (hexUpper2 p ++ hexUpper2 co ++ hexUpper2 l) 2 4 =
      some (hexUpper2 co) := hsl.2.1
  have hsl3 : sliceBytes (hexUpper2 p ++ hexUpper2 co ++ hexUpper2 l) 4 6 =
      some (hexUpper2 l) := hsl.2.2
  have hblen : byteLen (hexUpper2 p ++ hexUpper2 co ++ hexUpper2 l) = 6 := by
    rw [byteLen_append, byteLen_append, byteLen_hexUpper2 hp, byteLen_hexUpper2 hc,
      byteLen_hexUpper2 hl]
  unfold avc1FromStr
  rw [if_neg (by omega)]
  simp only [hsl1, hsl2, hsl3, hexUpper2_rt p (by omega), hexUpper2_rt co (by omega),
    hexUpper2_rt l (by omega)]

theorem avc1_display_reparse {p co l : Nat} (hp : p ≤ 255) (hc : co ≤ 255)
    (hl : l ≤ 255) :
    codecFromStr (codecDisplay (.Avc1 ⟨p, co, l⟩)) = some (.ok (.Avc1 ⟨p, co, l⟩)) := by
  have hdisp : codecDisplay (Codec.Avc1 ⟨p, co, l⟩) =
      strToR "avc1." ++ (hexUpper2 p ++ hexUpper2 co ++ hexUpper2 l) := by
    simp [codecDisplay]
  rw [hdisp, codecFromStr_avc1, avc1FromStr_hexUpper2 hp hc hl]

theorem mp4aFromStr_display_unknown {oti : Nat} (ho : oti ≤ 255) (hne : oti ≠ 64)
    (aoti : Option Nat) (hb : aoti = none ∨ ∃ b, aoti = some b ∧ b ≤ 255) :
    mp4aFromStr (mp4aDisplay (.Unknown oti aoti)) = .ok (.Unknown oti aoti) := by
  have hnd : '.' ∉ hexLower2 oti := no_dot_hexLower2 ho
  rcases hb with rfl | ⟨b, rfl, hble⟩
  · have hdisp : mp4aDisplay (Mp4a.Unknown oti none) = hexLower2 oti := by
      simp [mp4aDisplay]
    rw [hdisp]
    unfold mp4aFromStr
    simp only [splitn2Dot_no_dot hnd, hexLower2_rt oti (by omega)]
    rw [if_neg (show ¬(oti = AUDIO_ISO_IEC_14496_3) from hne)]
  · have hdisp : mp4aDisplay (Mp4a.Unknown oti (some b)) =
        hexLower2 oti ++ '.' :: decStr b := by
      simp [mp4aDisplay]
    rw [hdisp]
    unfold mp4aFromStr
    simp only [splitn2Dot_append (hexLower2 oti) (decStr b) hnd,
      hexLower2_rt oti (by omega), decStr_rt b (by omega), Except.map]
    rw [if_neg (show ¬(oti = AUDIO_ISO_IEC_14496_3) from hne)]

theorem mp4a_reparse_audio_some : ∀ a, a ≤ 45 → 1 ≤ a →
    mp4aFromStr (mp4aDisplay (.Mpeg4Audio (some a))) = .ok (.Mpeg4Audio (some a)) := by
  decide

theorem mp4a_display_reparse {m : Mp4a}
    (wf : (m = .Mpeg4Audio none) ∨
      (∃ a, m = .Mpeg4Audio (some a) ∧ 1 ≤ a ∧ a ≤ 45) ∨
      (∃ oti aoti, m = .Unknown oti aoti ∧ oti ≤ 255 ∧ oti ≠ 64 ∧
        (aoti = none ∨ ∃ b, aoti = some b ∧ b ≤ 255))) :
    codecFromStr (codecDisplay (.Mp4a m)) = some (.ok (.Mp4a m)) := by
  have hdisp : codecDisplay (Codec.Mp4a m) = strToR "mp4a." ++ mp4aDisplay m := rfl
  rw [hdisp, codecFromStr_mp4a]
  rcases wf with rfl | ⟨a, rfl, h1, h2⟩ | ⟨oti, aoti, rfl, ho, hne, hb⟩
  · rw [show mp4aFromStr (mp4aDisplay (Mp4a.Mpeg4Audio none)) =
        .ok (.Mpeg4Audio none) from by decide]
  · rw [mp4a_reparse_audio_some a h2 h1]
  · rw [mp4aFromStr_display_unknown ho hne aoti hb]

end Lemmas

section Claims

set_option maxRecDepth 8000

/-- C1: the claim says `Codec::from_str` returns `Ok` or `Err` on every valid
UTF-8 input and never aborts — in particular a 6-byte `avc1` payload holding a
multi-byte character should yield a clean `Err`.  The code does return `Err`
for `"cod👍ec"` (it has no `.`), but on `"avc1.a👍b"` the payload passes the
6-byte length check and `&value[0..2]` then slices through the middle of the
4-byte character: a panic, modelled here as `none`. -/
theorem c1_multibyte_avc1_payload_panics :
    codecFromStr (strToR "avc1.a👍b") = none ∧
    codecFromStr (strToR "cod👍ec") =
      some (.error (.ExpectedHierarchySeparator (strToR "cod👍ec"))) := by
  decide

/-- C2: for every string the parser accepts, formatting the parsed value and
parsing that string again returns the very same value — so every canonical
string (the formatter's output) is a fixed point of parse-then-format; on the
spec's examples the canonical "avc1.4D401E", "mp4a.40.3" and "badd.41"
reproduce themselves exactly, and the non-canonical "avc1.4d401e" parses and
formats to the canonical "avc1.4D401E", itself a fixed point. -/
theorem c2_parse_display_roundtrip (s : RStr) (c : Codec)
    (h : codecFromStr s = some (Except.ok c)) :
    codecFromStr (codecDisplay c) = some (Except.ok c) ∧
    parseThenDisplay (strToR "avc1.4D401E") = some (strToR "avc1.4D401E") ∧
    parseThenDisplay (strToR "mp4a.40.3") = some (strToR "mp4a.40.3") ∧
    parseThenDisplay (strToR "badd.41") = some (strToR "badd.41") ∧
    parseThenDisplay (strToR "avc1.4d401e") = some (strToR "avc1.4D401E") := by
  refine ⟨?_, by decide, by decide, by decide, by decide⟩
  rcases codecFromStr_ok_inv h with rfl | ⟨a, payload, rfl, hap⟩ | ⟨m, payload, rfl, hmp⟩
  · exact h
  · obtain ⟨p, co, l⟩ := a
    obtain ⟨hp, hc, hl⟩ := avc1FromStr_ok_le hap
    exact avc1_display_reparse hp hc hl
  · exact mp4a_display_reparse (mp4aFromStr_ok_wf hmp)

theorem c2_parse_display_roundtrip_witness :
    codecFromStr (strToR "avc1.4d401e") =
      some (Except.ok (Codec.Avc1 ⟨0x4d, 0x40, 0x1e⟩)) ∧
    codecFromStr (codecDisplay (Codec.Avc1 ⟨0x4d, 0x40, 0x1e⟩)) =
      some (Except.ok (Codec.Avc1 ⟨0x4d, 0x40, 0x1e⟩)) :=
  ⟨by decide,
   (c2_parse_display_roundtrip (strToR "avc1.4d401e") (Codec.Avc1 ⟨0x4d, 0x40, 0x1e⟩)
     (by decide)).1⟩

/-- C3 (counterexample): the claim's "unless" clause says a bare unknown
4-character code with no payload — its own example — resolves to the
opaque/unknown variant with no separator required; but `Codec::from_str`
checks for `.` before anything else, so `"badd"` is the hard error
`ExpectedHierarchySeparator("badd")`, not `Ok(Unknown("badd"))`. -/
theorem c3_counterexample :
    codecFromStr (strToR "badd") =
      some (.error (.ExpectedHierarchySeparator (strToR "badd"))) ∧
    ¬ codecFromStr (strToR "badd") = some (.ok (.Unknown (strToR "badd"))) := by
  decide

/-- C3 (amended): for every input string containing no `.`, `Codec::from_str`
returns the hard error `ExpectedHierarchySeparator` carrying the input text —
unconditionally, with no opaque/unknown exception. -/
theorem c3_no_separator (s : RStr) (h : '.' ∉ s) :
    codecFromStr s = some (.error (.ExpectedHierarchySeparator s)) := by
  unfold codecFromStr
  rw [splitAtFirstDot_eq_none h]

theorem c3_no_separator_witness :
    '.' ∉ strToR "badd" ∧
    codecFromStr (strToR "badd") =
      some (Except.error (CodecError.ExpectedHierarchySeparator (strToR "badd"))) :=
  ⟨by decide, c3_no_separator (strToR "badd") (by decide)⟩

/-- C4: an `avc1` payload whose length is not exactly 6 — length as the code
measures it, `str::len` in UTF-8 bytes, which coincides with the character
count on ASCII payloads such as the spec's examples — fails with
`UnexpectedLength` carrying `expected = 6` and the payload text; in
particular `"avc1.41141"` and `"avc1.4114134"`. -/
theorem c4_avc1_length (payload : RStr) (h : byteLen payload ≠ 6) :
    avc1FromStr payload = some (.error (.UnexpectedLength 6 payload)) ∧
    codecFromStr (strToR "avc1.41141") =
      some (.error (.UnexpectedLength 6 (strToR "41141"))) ∧
    codecFromStr (strToR "avc1.4114134") =
      some (.error (.UnexpectedLength 6 (strToR "4114134"))) := by
  refine ⟨?_, by decide, by decide⟩
  unfold avc1FromStr
  rw [if_pos h]

theorem c4_avc1_length_witness :
    byteLen (strToR "41141") ≠ 6 ∧
    avc1FromStr (strToR "41141") =
      some (Except.error (CodecError.UnexpectedLength 6 (strToR "41141"))) :=
  ⟨by decide, (c4_avc1_length (strToR "41141") (by decide)).1⟩

/-- C5: for a 6-character all-ASCII `avc1` payload, the three consecutive
2-character slices are parsed in order as base-16 `u8` values — any slice that
fails to parse makes the result `InvalidComponent` carrying the whole payload,
and success yields (profile, constraints, level) in that order; base-16 digits
are accepted in both upper and lower case; and an `Avc1` value always renders
as `avc1.` followed by the three fields, each as exactly two upper-case
zero-padded hex digits. -/
theorem c5_avc1_components (payload : RStr)
    (hall : ∀ ch ∈ payload, utf8Size ch = 1) (hlen : payload.length = 6) :
    (avc1FromStr payload = some (
      match fromStrRadixU8 16 (payload.take 2),
            fromStrRadixU8 16 ((payload.drop 2).take 2),
            fromStrRadixU8 16 (payload.drop 4) with
      | .ok p, .ok co, .ok l => .ok ⟨p, co, l⟩
      | _, _, _ => .error (.InvalidComponent payload))) ∧
    (∀ n, n < 256 → fromStrRadixU8 16 (hexUpper2 n) = .ok n ∧
       fromStrRadixU8 16 (hexLower2 n) = .ok n) ∧
    (∀ p co l : Nat, codecDisplay (.Avc1 ⟨p, co, l⟩) =
       strToR "avc1." ++ hexUpper2 p ++ hexUpper2 co ++ hexUpper2 l) ∧
    (∀ n, n < 256 → (hexUpper2 n).length = 2 ∧
       ∀ ch ∈ hexUpper2 n, isHexDigitUpper ch = true) := by
  refine ⟨?_, fun n hn => ⟨hexUpper2_rt n hn, hexLower2_rt n hn⟩,
    fun p co l => rfl, hexUpper2_len2⟩
  rcases payload with _ | ⟨a, _ | ⟨b, _ | ⟨c, _ | ⟨d, _ | ⟨e, _ | ⟨f, _ | ⟨g, t⟩⟩⟩⟩⟩⟩⟩ <;>
    simp only [List.length_cons, List.length_nil] at hlen <;> try omega
  have ha := hall a (by simp)
  have hb := hall b (by simp)
  have hc := hall c (by simp)
  have hd := hall d (by simp)
  have he := hall e (by simp)
  have hf := hall f (by simp)
  have htake1 : [a, b, c, d, e, f].take 2 = [a, b] := rfl
  have htake2 : ([a, b, c, d, e, f].drop 2).take 2 = [c, d] := rfl
  have hdrop : [a, b, c, d, e, f].drop 4 = [e, f] := rfl
  rw [htake1, htake2, hdrop]
  unfold avc1FromStr
  rw [if_neg (by simp [byteLen, ha, hb, hc, hd, he, hf])]
  obtain ⟨sl1, sl2, sl3⟩ := sliceBytes_six ha hb hc hd he hf
  simp only [sl1, sl2, sl3]
  cases hp : fromStrRadixU8 16 [a, b] with
  | error e1 => simp [hp]
  | ok p =>
    cases hq : fromStrRadixU8 16 [c, d] with
    | error e1 => simp [hp, hq]
    | ok co =>
      cases hr : fromStrRadixU8 16 [e, f] with
      | error e1 => simp [hp, hq, hr]
      | ok l => simp [hp, hq, hr]

theorem c5_avc1_components_witness :
    (∀ ch ∈ strToR "4d401e", utf8Size ch = 1) ∧ (strToR "4d401e").length = 6 ∧
    avc1FromStr (strToR "4d401e") =
      some (Except.ok (⟨0x4d, 0x40, 0x1e⟩ : Avc1)) := by
  refine ⟨by decide, by decide, ?_⟩
  have h := (c5_avc1_components (strToR "4d401e") (by decide) (by decide)).1
  rw [h]
  decide

/-- C6: whenever the leading code — the part before the first `.` — is a
4-character code other than `mp4a` and `avc1` (the two known sample-entry
families), `Codec::from_str` succeeds with the opaque/unknown variant holding
exactly the original input string, and formatting that value reproduces the
same string; in particular `"badd.41"`. -/
theorem c6_unknown_passthrough (s fourcc rest : RStr)
    (hsplit : splitAtFirstDot s = some (fourcc, rest))
    (hlen : fourcc.length = 4)
    (hm : fourcc ≠ strToR "mp4a") (ha : fourcc ≠ strToR "avc1") :
    codecFromStr s = some (.ok (.Unknown s)) ∧ codecDisplay (.Unknown s) = s := by
  refine ⟨?_, rfl⟩
  unfold codecFromStr
  simp only [hsplit]
  by_cases hb : byteLen fourcc ≠ 4
  · rw [if_pos hb]
  · rw [if_neg hb]
    have hsec : sampleEntryCode fourcc = .other := by
      unfold sampleEntryCode
      rw [if_neg hm, if_neg ha]
    rw [hsec]

theorem c6_unknown_passthrough_witness :
    splitAtFirstDot (strToR "badd.41") = some (strToR "badd", strToR ".41") ∧
    codecFromStr (strToR "badd.41") =
      some (Except.ok (Codec.Unknown (strToR "badd.41"))) ∧
    codecDisplay (Codec.Unknown (strToR "badd.41")) = strToR "badd.41" :=
  ⟨by decide,
   (c6_unknown_passthrough (strToR "badd.41") (strToR "badd") (strToR ".41")
     (by decide) (by decide) (by decide) (by decide)).1,
   (c6_unknown_passthrough (strToR "badd.41") (strToR "badd") (strToR ".41")
     (by decide) (by decide) (by decide) (by decide)).2⟩

/-- C7 (counterexample): the claim says a present secondary mp4a value is
rendered in hexadecimal.  The value parsed from `"mp4a.41.30"` carries
secondary byte 30 and renders back as `"mp4a.41.30"` — decimal 30, not the
hexadecimal rendering `1e`; parsing the hexadecimal spelling `"mp4a.41.1e"`
even fails, because the secondary component is parsed with `u8::from_str`
(decimal). -/
theorem c7_counterexample :
    codecDisplay (.Mp4a (.Unknown 0x41 (some 30))) = strToR "mp4a.41.30" ∧
    strToR "mp4a.41.30" ≠ strToR "mp4a.41.1e" ∧
    codecFromStr (strToR "mp4a.41.30") =
      some (.ok (.Mp4a (.Unknown 0x41 (some 30)))) ∧
    codecFromStr (strToR "mp4a.41.1e") =
      some (.error (.InvalidComponent (strToR "invalid digit found in string"))) := by
  decide

/-- C7 (amended): for every mp4a value with a secondary component present,
serialization renders the object-type-indication as 2 lower-case hex digits,
then `.`, then the secondary value in decimal without leading zero-padding —
decimal being the same base `u8::from_str` uses when parsing that component. -/
theorem c7_secondary_decimal (oti b a : Nat) (hoti : oti ≤ 255) (hb : b ≤ 255)
    (ha : a ≤ 255) :
    codecDisplay (Codec.Mp4a (Mp4a.Unknown oti (some b))) =
      strToR "mp4a." ++ hexLower2 oti ++ '.' :: decStr b ∧
    codecDisplay (Codec.Mp4a (Mp4a.Mpeg4Audio (some a))) =
      strToR "mp4a." ++ hexLower2 AUDIO_ISO_IEC_14496_3 ++ '.' :: decStr a ∧
    fromStrRadixU8 10 (decStr b) = .ok b ∧
    (1 ≤ b → (decStr b).head? ≠ some '0') ∧
    (hexLower2 oti).length = 2 ∧
    (∀ ch ∈ hexLower2 oti, isHexDigitLower ch = true) := by
  refine ⟨?_, ?_, decStr_rt b (by omega), decStr_no_leading_zero b (by omega),
    (hexLower2_len2 oti (by omega)).1, (hexLower2_len2 oti (by omega)).2⟩
  · simp [codecDisplay, mp4aDisplay, List.append_assoc]
  · simp [codecDisplay, mp4aDisplay, List.append_assoc]

theorem c7_secondary_decimal_witness :
    codecDisplay (Codec.Mp4a (Mp4a.Unknown 65 (some 30))) =
      strToR "mp4a." ++ hexLower2 65 ++ '.' :: decStr 30 ∧
    fromStrRadixU8 10 (decStr 30) = Except.ok 30 :=
  ⟨(c7_secondary_decimal 65 30 3 (by decide) (by decide) (by decide)).1,
   (c7_secondary_decimal 65 30 3 (by decide) (by decide) (by decide)).2.2.1⟩

/-- C8: for every mp4a payload the first dot-separated component is parsed as
a base-16 `u8` object-type-indication, failure giving `InvalidComponent`
carrying it; with the standard MPEG-4-audio value 0x40 and a present secondary
byte, the byte is resolved through the audio-object-type enumeration and an
unrecognized value is the hard error `InvalidComponent` carrying the byte's
decimal string form; with any other object-type-indication the result is the
generic case storing the raw object-type-indication byte and the raw
unvalidated secondary byte. -/
theorem c8_mp4a_components (payload : RStr) :
    (∀ e, fromStrRadixU8 16 (splitn2Dot payload).1 = .error e →
       mp4aFromStr payload = .error (.InvalidComponent (splitn2Dot payload).1)) ∧
    (∀ oti, fromStrRadixU8 16 (splitn2Dot payload).1 = .ok oti →
       ((splitn2Dot payload).2 = none →
         mp4aFromStr payload =
           .ok (if oti = AUDIO_ISO_IEC_14496_3 then .Mpeg4Audio none
                else .Unknown oti none)) ∧
       (∀ v b, (splitn2Dot payload).2 = some v → fromStrRadixU8 10 v = .ok b →
         mp4aFromStr payload =
           if oti = AUDIO_ISO_IEC_14496_3 then
             match audioObjectTypeTryFrom b with
             | some aot => .ok (.Mpeg4Audio (some aot))
             | none => .error (.InvalidComponent (decStr b))
           else .ok (.Unknown oti (some b)))) := by
  constructor
  · intro e he
    unfold mp4aFromStr
    simp only [he]
  · intro oti hoti
    constructor
    · intro h2
      unfold mp4aFromStr
      simp only [hoti, h2]
      by_cases ho : oti = AUDIO_ISO_IEC_14496_3 <;> simp [ho]
    · intro v b hv hb
      unfold mp4aFromStr
      simp only [hoti, hv, hb, Except.map]
      by_cases ho : oti = AUDIO_ISO_IEC_14496_3
      · simp only [if_pos ho]
        cases h4 : audioObjectTypeTryFrom b <;> simp [h4]
      · simp only [if_neg ho]

theorem c8_mp4a_components_witness :
    mp4aFromStr (strToR "40.2") = .ok (.Mpeg4Audio (some 2)) ∧
    mp4aFromStr (strToR "40.200") = .error (.InvalidComponent (strToR "200")) ∧
    mp4aFromStr (strToR "41.30") = .ok (.Unknown 0x41 (some 30)) ∧
    mp4aFromStr (strToR "4g") = .error (.InvalidComponent (strToR "4g")) := by
  refine ⟨?_, ?_, ?_, ?_⟩
  · have h := ((c8_mp4a_components (strToR "40.2")).2 64 (by decide)).2
      (strToR "2") 2 (by decide) (by decide)
    rw [h]; decide
  · have h := ((c8_mp4a_components (strToR "40.200")).2 64 (by decide)).2
      (strToR "200") 200 (by decide) (by decide)
    rw [h]; decide
  · have h := ((c8_mp4a_components (strToR "41.30")).2 65 (by decide)).2
      (strToR "30") 30 (by decide) (by decide)
    rw [h]; decide
  · exact (c8_mp4a_components (strToR "4g")).1 .InvalidDigit (by decide)

/-- C9: `Codec::parse_codecs` yields one result per comma-separated entry with
order preserved, each entry trimmed and parsed independently of its
neighbours (the i-th result is exactly `Codec::from_str` of the i-th trimmed
entry); on `"mp4a.40.2,avc1.4d401e"` it yields exactly two `Ok` results in
order: standard MPEG-4 audio with audio-object-type 2 and a video value with
profile 0x4d, constraints 0x40, level 0x1e. -/
theorem c9_parse_codecs (s : RStr) (i : Nat) :
    (parseCodecs s).length = (splitComma s).length ∧
    (parseCodecs s).get? i = ((splitComma s).get? i).map
      (fun entry => codecFromStr (rustTrim entry)) ∧
    parseCodecs (strToR "mp4a.40.2,avc1.4d401e") =
      [some (.ok (.Mp4a (.Mpeg4Audio (some 2)))),
       some (.ok (.Avc1 ⟨0x4d, 0x40, 0x1e⟩))] := by
  refine ⟨?_, ?_, by decide⟩
  · simp [parseCodecs]
  · simp [parseCodecs, List.get?_map]

/-- C10: a value built by the constructor `Codec::avc1(p, c, l)` from any
three bytes serializes to a string that parses back to an `Avc1` value whose
accessors return exactly the three bytes. -/
theorem c10_constructor_roundtrip (p co l : Nat)
    (hp : p ≤ 255) (hc : co ≤ 255) (hl : l ≤ 255) :
    codecFromStr (codecDisplay (Codec.avc1 p co l)) =
      some (.ok (.Avc1 ⟨p, co, l⟩)) ∧
    Codec.avc1 p co l = Codec.Avc1 ⟨p, co, l⟩ ∧
    (⟨p, co, l⟩ : Avc1).profile = p ∧ (⟨p, co, l⟩ : Avc1).constraints = co ∧
    (⟨p, co, l⟩ : Avc1).level = l :=
  ⟨avc1_display_reparse hp hc hl, rfl, rfl, rfl, rfl⟩

theorem c10_constructor_roundtrip_witness :
    codecFromStr (codecDisplay (Codec.avc1 0x4d 0x40 0x1e)) =
      some (Except.ok (Codec.Avc1 ⟨0x4d, 0x40, 0x1e⟩)) :=
  (c10_constructor_roundtrip 0x4d 0x40 0x1e (by decide) (by decide) (by decide)).1

end Claims

end Rfc6381
